import Mathlib

/-!
Verification development for the `sensitive` word-detection library
(Double-Array-Trie Aho-Corasick matcher with input normalization).

Strings are modelled as lists of Unicode code points (`List Nat`), since
every operation of the library works rune by rune.  Go `int` values that
can become negative (match offsets) are modelled as `Int`; array indices,
code points and array lengths as `Nat`.  The six parallel arrays of the
double-array trie are modelled as total functions `Nat → _` together with
a shared `len` field: Go's arrays are zero-initialised and grown in
lockstep with zero fill, which the function representation gives for free.

Go's `unicode.ToLower` is external to the repository; it is threaded
through as an explicit parameter `tl : Nat → Nat`.  Concrete evaluations
instantiate it with `simpleToLower`, which agrees with `unicode.ToLower`
on every code point those evaluations touch (ASCII and the full-width
Latin block).

Unbounded `for {}` loops of the source are given an explicit `fuel`
argument and return `Option`; `none` models divergence or a Go runtime
panic (the panic sites are marked in comments).
-/

/-- Pointwise update of a function-modelled array: `arr[i] = v`. -/
def setF {α : Type} (f : Nat → α) (i : Nat) (v : α) : Nat → α :=
  fun j => if j = i then v else f j

/-- Lookup in an association list (model of a Go `map` read). -/
def assocLookup {α : Type} : List (Nat × α) → Nat → Option α
  | [], _ => none
  | (k, v) :: rest, r => if k = r then some v else assocLookup rest r

/-- Insertion into a sorted list of code points. -/
def insertSorted (x : Nat) : List Nat → List Nat
  | [] => [x]
  | y :: ys => if x ≤ y then x :: y :: ys else y :: insertSorted x ys

/-- Model of `sort.Ints` applied to the key set of a child map. -/
def sortNat (l : List Nat) : List Nat := l.foldr insertSorted []

/-- Model of Go `unicode.ToLower` on the code points used by the concrete
evaluations in this file: it lowers ASCII letters and the full-width
Latin capital block, and fixes everything else, exactly as
`unicode.ToLower` does on those inputs. -/
def simpleToLower (r : Nat) : Nat :=
  if 0x41 ≤ r ∧ r ≤ 0x5A then r + 0x20
  else if 0xFF21 ≤ r ∧ r ≤ 0xFF3A then r + 0x20
  else r

/-! ## Normalizer (src/unnamed/part_002 and src/internal/normalizer/normalizer.go)

The process-global `variantMap` (`var variantMap map[rune]rune`, `nil`
until `LoadVariantMap` runs) is modelled as a parameter
`tbl : Option (List (Nat × Nat))`; `none` is the nil map. -/

/-- Variant table: `none` models the nil map before `LoadVariantMap`. -/
abbrev VariantTbl := Option (List (Nat × Nat))

/-- Normalizer configuration, from `normalizer.New(variant, caseSensitive)`
in part_002: `lower = !caseSensitive`. -/
structure Normalizer where
  variant : Bool
  lower : Bool
deriving DecidableEq

/-- Constructor `normalizer.New` of part_002. -/
def Normalizer.New (variant caseSensitive : Bool) : Normalizer :=
  ⟨variant, !caseSensitive⟩

/-- Loop body of `Normalizer.Normalize` (part_002 lines 26-41): variant
substitution when enabled and the map is non-nil, then `unicode.ToLower`
when lowering is on, then the width fold. -/
def normRune (tl : Nat → Nat) (n : Normalizer) (tbl : VariantTbl) (r : Nat) : Nat :=
  let r1 :=
    if n.variant then
      match tbl with
      | some m => (assocLookup m r).getD r
      | none => r
    else r
  let r2 := if n.lower then tl r1 else r1
  if 0xFF01 ≤ r2 ∧ r2 ≤ 0xFF5E then r2 - 0xFEE0
  else if r2 = 0x3000 then 0x20
  else r2

/-- `Normalizer.Normalize` of part_002: the loop writes `runes[i]` from the
rune read at `i`, so the transform is an independent per-code-point map. -/
def Normalizer.Normalize (tl : Nat → Nat) (n : Normalizer) (tbl : VariantTbl)
    (text : List Nat) : List Nat :=
  text.map (normRune tl n tbl)

/-- Width-fold step shared by all three branches of `ToRunes`. -/
def widthFold (r : Nat) : Nat :=
  if 0xFF01 ≤ r ∧ r ≤ 0xFF5E then r - 0xFEE0
  else if r = 0x3000 then 0x20
  else r

/-- Lowercase step of the second and third `ToRunes` branches: ASCII
fast path, `unicode.ToLower` above 127. -/
def toRunesLower (tl : Nat → Nat) (r : Nat) : Nat :=
  if 0x41 ≤ r ∧ r ≤ 0x5A then r + 0x20
  else if r > 127 then tl r
  else r

/-- Variant step of the third `ToRunes` branch: the map is consulted
whenever it is non-nil. -/
def toRunesVariant (tbl : VariantTbl) (r : Nat) : Nat :=
  match tbl with
  | some m => (assocLookup m r).getD r
  | none => r

/-- `Normalizer.ToRunes` of part_002 (lines 45-95), the allocation-free
normalization used by `Detector.Detect`: three specialised loops chosen
by the configuration. -/
def Normalizer.ToRunes (tl : Nat → Nat) (n : Normalizer) (tbl : VariantTbl)
    (text : List Nat) : List Nat :=
  if !n.variant ∧ !n.lower then
    text.map widthFold
  else if n.lower ∧ !n.variant then
    text.map (fun r => widthFold (toRunesLower tl r))
  else
    text.map (fun r =>
      let r1 := toRunesVariant tbl r
      let r2 := if n.lower then toRunesLower tl r1 else r1
      widthFold r2)

/-- Loop body of `Normalizer.Normalize` in
src/internal/normalizer/normalizer.go (lines 27-50): the variant guard is
`len(variantMap) > 0` and the configuration stores `caseSensitive`
directly. -/
def internalNormRune (tl : Nat → Nat) (enableVariant caseSensitive : Bool)
    (tbl : VariantTbl) (r : Nat) : Nat :=
  let r1 :=
    if enableVariant ∧ (match tbl with | some m => decide (m.length > 0) | none => false) = true then
      match tbl with
      | some m => (assocLookup m r).getD r
      | none => r
    else r
  let r2 := if !caseSensitive then tl r1 else r1
  if 0xFF01 ≤ r2 ∧ r2 ≤ 0xFF5E then r2 - 0xFEE0
  else if r2 = 0x3000 then 0x20
  else r2

/-- `Normalizer.Normalize` of src/internal/normalizer/normalizer.go. -/
def internalNormalize (tl : Nat → Nat) (enableVariant caseSensitive : Bool)
    (tbl : VariantTbl) (text : List Nat) : List Nat :=
  text.map (internalNormRune tl enableVariant caseSensitive tbl)

/-! Spec-side normalization pipeline, written from the words of the
specification (section 4.A) for the refinement claim C8. -/

/-- Spec wording: variant-table substitution happens only when variant
folding is enabled and a table is loaded; unmapped code points pass
through. -/
def specVariantFold (enabled : Bool) (tbl : VariantTbl) (r : Nat) : Nat :=
  if enabled ∧ tbl.isSome then
    match tbl with
    | some m => (assocLookup m r).getD r
    | none => r
  else r

/-- Spec wording: unconditional width folding shifts `U+FF01..U+FF5E`
down by `0xFEE0` and maps `U+3000` to `U+0020`; everything else is
unchanged. -/
def specWidthFold (r : Nat) : Nat :=
  if 0xFF01 ≤ r ∧ r ≤ 0xFF5E then r - 0xFEE0
  else if r = 0x3000 then 0x20
  else r

/-- Spec-side per-code-point pipeline: variant fold, then lowercase when
case folding is enabled, then width fold. -/
def specNormalizeRune (tl : Nat → Nat) (n : Normalizer) (tbl : VariantTbl) (r : Nat) : Nat :=
  specWidthFold ((if n.lower then tl else id) (specVariantFold n.variant tbl r))

/-- Spec-side normalization: the per-code-point pipeline applied
independently to every code point. -/
def specNormalize (tl : Nat → Nat) (n : Normalizer) (tbl : VariantTbl)
    (text : List Nat) : List Nat :=
  text.map (specNormalizeRune tl n tbl)

/-! ## Staging trie and Double-Array Trie (src/unnamed/part_003)

The Go package is `trie`; the namespace keeps the qualified names
(`trie.Tree`, `trie.Match`, ...). -/

namespace trie

/-- Staging trie node (`trieNode` of part_003): child map, terminal flag,
the normalized pattern recorded at terminals, and its level.  The Go
`word *string` pointer is nil until the node becomes terminal; the model
keeps the empty list there, which is never read. -/
inductive TrieNode : Type where
  | mk (children : List (Nat × TrieNode)) (isEnd : Bool) (word : List Nat) (level : Int)

/-- Child map of a staging node. -/
def TrieNode.children : TrieNode → List (Nat × TrieNode)
  | .mk c _ _ _ => c

/-- Terminal flag of a staging node. -/
def TrieNode.isEnd : TrieNode → Bool
  | .mk _ e _ _ => e

/-- Pattern recorded at a terminal staging node. -/
def TrieNode.word : TrieNode → List Nat
  | .mk _ _ w _ => w

/-- Level recorded at a terminal staging node. -/
def TrieNode.level : TrieNode → Int
  | .mk _ _ _ l => l

/-- Fresh interior node (`&trieNode{children: make(map[rune]*trieNode)}`). -/
def emptyNode : TrieNode := .mk [] false [] 0

/-- Upsert into a child map (Go map write). -/
def upsertChild (r : Nat) (v : TrieNode) : List (Nat × TrieNode) → List (Nat × TrieNode)
  | [] => [(r, v)]
  | (k, w) :: rest => if k = r then (r, v) :: rest else (k, w) :: upsertChild r v rest

/-- Walk of `Tree.Insert` (part_003 lines 51-62): create children as
needed, then mark the final node terminal with the whole word and level. -/
def insertAux (full : List Nat) (lvl : Int) : TrieNode → List Nat → TrieNode
  | node, [] => .mk node.children true full lvl
  | node, r :: rest =>
      let child := (assocLookup node.children r).getD emptyNode
      .mk (upsertChild r (insertAux full lvl child rest) node.children) node.isEnd node.word node.level

/-- Output record attached to a DAT state (`output` struct of part_003). -/
structure Output where
  word : List Nat
  level : Int
  len : Nat
deriving DecidableEq

/-- Match record of part_003.  `Start` is `Int` because the source
computes `i - out.len + 1` in Go `int` arithmetic, which can go
negative.  The Go field `End` is spelled `EndPos` (Lean keyword). -/
structure Match where
  Word : List Nat
  Start : Int
  EndPos : Int
  Level : Int
deriving DecidableEq

/-- The `Tree` of part_003: the six lockstep arrays (functions plus the
shared length `len`), the packing cursor, and the staging root, which is
`none` after `Build` has released it (`t.root = nil`). -/
structure Tree where
  base : Nat → Nat
  check : Nat → Nat
  fail : Nat → Nat
  output : Nat → Option (List Output)
  children : Nat → List Nat
  used : Nat → Bool
  size : Nat
  nextCheckPos : Nat
  len : Nat
  root : Option TrieNode

/-- Initial DAT capacity (`initialSize` of part_003). -/
def initialSize : Nat := 524288

/-- `trie.New()`: empty staging root, `nextCheckPos = 1`, nil arrays. -/
def Tree.New : Tree :=
  { base := fun _ => 0, check := fun _ => 0, fail := fun _ => 0
    output := fun _ => none, children := fun _ => [], used := fun _ => false
    size := 0, nextCheckPos := 1, len := 0, root := some emptyNode }

/-- `Tree.Insert` of part_003.  When `root` is nil (after `Build`), the
walk dereferences a nil pointer (in the loop body, or at the terminal
marking for an empty word): modelled as `none`. -/
def Tree.Insert (t : Tree) (word : List Nat) (lvl : Int) : Option Tree :=
  match t.root with
  | none => none
  | some root => some { t with root := some (insertAux word lvl root word) }

/-- Array growth of part_003 (both in `Build` and `buildDATRecursive`):
`newSize := len*2; if next+1 > newSize { newSize = next+1 }`, all six
arrays grown in lockstep with zero fill (free in the function model). -/
def ensure (t : Tree) (next : Nat) : Tree :=
  if next ≥ t.len then
    { t with len := max (t.len * 2) (next + 1) }
  else t

/-- Collision scan of one candidate base in `buildDATRecursive`: grows the
arrays on demand and stops at the first occupied slot. -/
def checkCollision : List Nat → Nat → Tree → Tree × Bool
  | [], _, t => (t, false)
  | c :: cs, b, t =>
      let t := ensure t (b + c)
      if t.used (b + c) then (t, true)
      else checkCollision cs b t

/-- The open `for {}` loop of `buildDATRecursive` searching for a
collision-free base, incrementing on each collision. -/
def findBase : Nat → List Nat → Nat → Tree → Option (Nat × Tree)
  | 0, _, _, _ => none
  | fuel + 1, cs, b, t =>
      match checkCollision cs b t with
      | (t, false) => some (b, t)
      | (t, true) => findBase fuel cs (b + 1) t

/-- Placement loop of `buildDATRecursive`, parameterised by the recursive
packing call for the child subtrees: for each sorted label `c`, set
`check`, `used` and the `children` log, append the output record when the
child is terminal (keeping an existing slice), bump `size`, recurse. -/
def placeChildren (rec_ : TrieNode → Nat → Tree → Option Tree) (node : TrieNode) :
    List Nat → Nat → Nat → Tree → Option Tree
  | [], _, _, t => some t
  | c :: cs, state, b, t =>
      let next := b + c
      let child := (assocLookup node.children c).getD emptyNode
      let outs := if child.isEnd then setF t.output next (some ((t.output next).getD [] ++ [⟨child.word, child.level, child.word.length⟩])) else t.output
      let t := { t with
                  check := setF t.check next state
                  used := setF t.used next true
                  children := setF t.children state (t.children state ++ [c])
                  output := outs }
      let t := if next ≥ t.size then { t with size := next + 1 } else t
      match rec_ child next t with
      | none => none
      | some t => placeChildren rec_ node cs state b t

/-- `Tree.buildDATRecursive` of part_003 (lines 180-267): sort the child
labels, search a base from `max(nextCheckPos, c₀+1) - c₀`, record the
base and raise the cursor, then place each child and recurse into it.
The fuel bounds the recursion depth. -/
def buildDATRecursive : Nat → TrieNode → Nat → Tree → Option Tree
  | 0, _, _, _ => none
  | fuel + 1, node, state, t =>
      if node.children.isEmpty then some t
      else
        let chars := sortNat (node.children.map Prod.fst)
        let c0 := chars.headD 0
        let pos := max t.nextCheckPos (c0 + 1)
        match findBase (fuel + 1) chars (pos - c0) t with
        | none => none
        | some (b, t) =>
            let t := { t with base := setF t.base state b }
            let t := if b > t.nextCheckPos then { t with nextCheckPos := b } else t
            placeChildren (buildDATRecursive fuel) node chars state b t

/-- Root-child loop of `Tree.Build` (part_003 lines 85-132): each sorted
root label `c` is placed directly at slot `c` (no free-slot check), its
output slice is created fresh when the child is terminal, and the child
subtree is packed recursively. -/
def placeRoot (fuel : Nat) (rootNode : TrieNode) : List Nat → Tree → Option Tree
  | [], t => some t
  | c :: cs, t =>
      let child := (assocLookup rootNode.children c).getD emptyNode
      let t := ensure t c
      let outs := if child.isEnd then setF t.output c (some [⟨child.word, child.level, child.word.length⟩]) else t.output
      let t := { t with
                  check := setF t.check c 0
                  used := setF t.used c true
                  children := setF t.children 0 (t.children 0 ++ [c])
                  output := outs }
      let t := if c ≥ t.size then { t with size := c + 1 } else t
      match buildDATRecursive fuel child c t with
      | none => none
      | some t => placeRoot fuel rootNode cs t

/-- Array initialisation and placement phase of `Tree.Build` (lines
64-132), up to but not including the failure-link BFS: allocate the six
arrays at `initialSize`, mark the root used, and place every subtree. -/
def Tree.buildPlace (fuel : Nat) (t : Tree) : Option Tree :=
  match t.root with
  | none => some t
  | some root =>
      let t := { t with
                  base := fun _ => 0, check := fun _ => 0, fail := fun _ => 0
                  output := fun _ => none, children := fun _ => []
                  used := setF (fun _ => false) 0 true
                  size := 1, len := initialSize, root := some root }
      placeRoot fuel root (sortNat (root.children.map Prod.fst)) t

/-- The failure-link walk for one BFS edge (part_003 lines 153-172): walk
the parent's failure chain until a genuine transition on `c` exists, or
fall back to the root child on `c` (if distinct from the state itself),
or to the root. -/
def failWalk (t : Tree) : Nat → Nat → Nat → Nat → Option Nat
  | 0, _, _, _ => none
  | fuel + 1, failState, c, next =>
      if failState = 0 then
        some (if c < t.len ∧ t.check c = 0 ∧ t.used c ∧ c ≠ next then c else 0)
      else
        let failNext := t.base failState + c
        if failNext < t.len ∧ t.check failNext = failState ∧ t.used failNext then some failNext
        else failWalk t fuel (t.fail failState) c next

/-- Inner loop of the BFS (part_003 lines 146-173): for each logged child
label of `state`, skip it unless the transition is genuine, otherwise
compute its failure link and append it to the queue. -/
def bfsChildren : Nat → Tree → Nat → List Nat → List Nat → Option (Tree × List Nat)
  | _, t, _, [], acc => some (t, acc)
  | fuel, t, state, c :: cs, acc =>
      let next := t.base state + c
      if next ≥ t.len ∨ ¬(t.check next = state) ∨ ¬(t.used next) then
        bfsChildren fuel t state cs acc
      else
        match failWalk t fuel (t.fail state) c next with
        | none => none
        | some f => bfsChildren fuel ({ t with fail := setF t.fail next f }) state cs (acc ++ [next])

/-- Outer BFS loop of `Tree.Build` (lines 142-174), driven by a head
cursor over the growing queue. -/
def bfsLoop : Nat → Tree → List Nat → Nat → Option Tree
  | 0, _, _, _ => none
  | fuel + 1, t, queue, head =>
      if h : head < queue.length then
        let state := queue.get ⟨head, h⟩
        match bfsChildren (fuel + 1) t state (t.children state) [] with
        | none => none
        | some (t, xs) => bfsLoop fuel t (queue ++ xs) (head + 1)
      else some t

/-- `Tree.Build` of part_003 (lines 64-178): placement, depth-1 failure
links and BFS, then release of the staging trie and the children log
(`t.root = nil; t.children = nil`). -/
def Tree.Build (fuel : Nat) (t : Tree) : Option Tree :=
  match t.root with
  | none => some t
  | some _ =>
      match t.buildPlace fuel with
      | none => none
      | some t =>
          let t := (t.children 0).foldl (fun t c => { t with fail := setF t.fail c 0 }) t
          match bfsLoop fuel t (t.children 0) 0 with
          | none => none
          | some t => some { t with root := none, children := fun _ => [] }

/-- The transition loop of `SearchDAT` for one input code point: follow
failure links until a genuine successor on `c` exists or the root is
reached; an out-of-range state resets to the root. -/
def transitionWalk (t : Tree) : Nat → Nat → Nat → Option Nat
  | 0, _, _ => none
  | fuel + 1, state, c =>
      if state ≥ t.len then some 0
      else
        let next := t.base state + c
        if next < t.len ∧ t.check next = state ∧ t.used next then some next
        else if state = 0 then some 0
        else transitionWalk t fuel (t.fail state) c

/-- The output walk of `SearchDAT` at one position: follow failure links
from the current state to the root, emitting every output record with
`Start = i - len + 1` and `End = i + 1`. -/
def outputWalk (t : Tree) : Nat → Nat → Nat → Option (List Match)
  | 0, _, _ => none
  | fuel + 1, temp, i =>
      if temp > 0 then
        let here :=
          if temp < t.len then
            match t.output temp with
            | some outs => outs.map (fun o =>
                Match.mk o.word ((i : Int) - (o.len : Int) + 1) ((i : Int) + 1) o.level)
            | none => []
          else []
        match outputWalk t fuel (t.fail temp) i with
        | none => none
        | some ms => some (here ++ ms)
      else some []

/-- Main loop of `SearchDAT` over the indexed input runes. -/
def searchLoop (t : Tree) (fuel : Nat) : List Nat → Nat → Nat → List Match → Option (List Match)
  | [], _, _, acc => some acc
  | r :: rest, i, state, acc =>
      match transitionWalk t fuel state r with
      | none => none
      | some state =>
          match outputWalk t fuel state i with
          | none => none
          | some ms => searchLoop t fuel rest (i + 1) state (acc ++ ms)

/-- `Tree.SearchDAT` of part_003 (lines 269-310): scan the text from the
root state, collecting matches in completion order. -/
def Tree.SearchDAT (t : Tree) (text : List Nat) (fuel : Nat) : Option (List Match) :=
  searchLoop t fuel text 0 0 []

end trie

/-! ## Detector facade (src/unnamed/part_000 and part_001, current DAT
version).  The `sensitive` package; top-level names here mirror it. -/

/-- `Level.IsValid` of part_000 (lines 27-29): `l >= LevelLow && l <= LevelHigh`. -/
def levelIsValid (l : Int) : Bool := 1 ≤ l ∧ l ≤ 3

/-- Filter strategies of part_000. -/
inductive FilterStrategy : Type where
  | mask
  | remove
  | replace
deriving DecidableEq

/-- Options record of part_000. -/
structure Options where
  filterStrategy : FilterStrategy
  replaceChar : Nat
  skipWhitespace : Bool
  enableVariant : Bool
  caseSensitive : Bool
deriving DecidableEq

/-- Defaults installed by `New` in part_001: mask strategy, `'*'`,
skip-whitespace on, variant off, case-insensitive. -/
def defaultOptions : Options := ⟨.mask, 0x2A, true, false, false⟩

/-- Result returned by `Detect`: the `Result` of part_000 with rune-list
text. -/
structure Result where
  HasSensitive : Bool
  Matches : List trie.Match
  FilteredText : List Nat
deriving DecidableEq

/-- Errors `AddWord` can return (part_001 lines 56-69). -/
inductive AddErr : Type where
  | emptyWord
  | invalidLevel
  | normalizedEmpty
deriving DecidableEq

/-- The `Detector` of part_001: tree, normalizer profile, options, built
flag and word count.  Locks and pools carry no sequential meaning. -/
structure Detector where
  tree : trie.Tree
  norm : Normalizer
  opts : Options
  built : Bool
  count : Nat

/-- `New` of part_001: fresh tree, normalizer derived from the options,
not yet built. -/
def Detector.New (o : Options) : Detector :=
  { tree := trie.Tree.New
    norm := Normalizer.New o.enableVariant o.caseSensitive
    opts := o, built := false, count := 0 }

/-- `Detector.AddWord` of part_001 (lines 56-76), with the post-call
detector returned next to the (possible) error: reject the empty word,
then an invalid level, then a word that normalizes to empty, each before
any mutation; otherwise insert and bump the count, clearing the built
flag.  `none` models the nil-root panic inside `tree.Insert`. -/
def Detector.AddWord (tl : Nat → Nat) (tbl : VariantTbl) (d : Detector)
    (word : List Nat) (level : Int) : Option (Detector × Option AddErr) :=
  if word = [] then some (d, some .emptyWord)
  else if ¬ levelIsValid level then some (d, some .invalidLevel)
  else
    let normalized := Normalizer.Normalize tl d.norm tbl word
    if normalized = [] then some (d, some .normalizedEmpty)
    else
      match d.tree.Insert normalized level with
      | none => none
      | some t => some ({ d with tree := t, count := d.count + 1, built := false }, none)

/-- `Detector.Build` of part_001 (lines 87-94): build the tree and set
the built flag; the Go error is always nil. -/
def Detector.Build (fuel : Nat) (d : Detector) : Option Detector :=
  match d.tree.Build fuel with
  | none => none
  | some t => some { d with tree := t, built := true }

/-- The bit-setting loop of `Detect` for one match
(`for i := m.Start; i < m.End && i < n; i++ { mask[i] = true }`):
a negative index inside the loop body is a Go slice-index panic,
modelled as `none`. -/
def setBits : Nat → List Bool → Int → Int → Option (List Bool)
  | 0, _, _, _ => none
  | fuel + 1, mask, i, e =>
      if i < e ∧ i < (mask.length : Int) then
        if 0 ≤ i then setBits fuel (mask.set i.toNat true) (i + 1) e
        else none
      else some mask

/-- The mask-building loop of `Detect` (part_001 lines 135-139) over all
reported matches, starting from the zeroed bitmap `pool.GetBools(n)`. -/
def buildMask (fuel : Nat) : List trie.Match → List Bool → Option (List Bool)
  | [], mask => some mask
  | m :: ms, mask =>
      match setBits fuel mask m.Start m.EndPos with
      | none => none
      | some mask => buildMask fuel ms mask

/-- The rewrite loop of `Detect` (part_001 lines 144-157): the effective
replacement is `'*'` under the mask strategy and the configured rune
otherwise; masked positions emit it unless the strategy is remove,
unmasked positions emit the original rune. -/
def applyFilter (o : Options) : List Nat → List Bool → List Nat
  | r :: rs, b :: bs =>
      if b then
        if o.filterStrategy ≠ .remove then
          (if o.filterStrategy = .mask then 0x2A else o.replaceChar) :: applyFilter o rs bs
        else applyFilter o rs bs
      else r :: applyFilter o rs bs
  | _, _ => []

/-- `Detector.Detect` of part_001 (lines 96-165): empty text and the
unbuilt fast path return an empty result carrying the original text; a
built tree is searched over `ToRunes(text)`, and on any match the result
carries the matches and the rewrite of the normalized runes. -/
def Detector.Detect (tl : Nat → Nat) (tbl : VariantTbl) (fuel : Nat)
    (d : Detector) (text : List Nat) : Option Result :=
  if text = [] then some ⟨false, [], text⟩
  else
    let runes := Normalizer.ToRunes tl d.norm tbl text
    if d.built = false then some ⟨false, [], text⟩
    else
      match d.tree.SearchDAT runes fuel with
      | none => none
      | some ms =>
          if 0 < ms.length then
            match buildMask fuel ms (List.replicate runes.length false) with
            | none => none
            | some mask => some ⟨true, ms, applyFilter d.opts runes mask⟩
          else some ⟨false, [], text⟩

/-! Spec-side rewrite, written from the words of claim C3. -/

/-- A position is masked when it lies inside some reported match's
`[Start, End)`. -/
def maskedAt (ms : List trie.Match) (i : Nat) : Bool :=
  ms.any fun m => m.Start ≤ (i : Int) ∧ (i : Int) < m.EndPos

/-- Position-by-position rewrite as the claim words it: a masked position
emits `'*'` under mask, the configured replacement under replace, nothing
under remove; an unmasked position emits the original code point. -/
def specRewriteFrom (o : Options) (ms : List trie.Match) : List Nat → Nat → List Nat
  | [], _ => []
  | r :: rs, i =>
      (if maskedAt ms i then
        match o.filterStrategy with
        | .mask => [0x2A]
        | .replace => [o.replaceChar]
        | .remove => []
      else [r]) ++ specRewriteFrom o ms rs (i + 1)

/-- Spec-side rewrite of the whole normalized input. -/
def specRewrite (o : Options) (ms : List trie.Match) (runes : List Nat) : List Nat :=
  specRewriteFrom o ms runes 0

/-! ## Concrete fixtures for the claim evaluations.

Code points: `a = 97`, `b = 98`, `d = 100`, `e = 101`, `q = 113`,
`x = 120`, `z = 122`. -/

/-- The word `ad`. -/
def wordAD : List Nat := [97, 100]

/-- The word `e`. -/
def wordE : List Nat := [101]

/-- The word `adz`. -/
def wordADZ : List Nat := [97, 100, 122]

/-- The word `eq`. -/
def wordEQ : List Nat := [101, 113]

/-- The text `ez`. -/
def textEZ : List Nat := [101, 122]

/-- The word `bad`. -/
def wordBAD : List Nat := [98, 97, 100]

/-- The text `xbad`. -/
def textXBAD : List Nat := [120, 98, 97, 100]

/-- Run `AddWord` and keep the detector only on error-free return. -/
def addOk (d : Detector) (w : List Nat) (l : Int) : Option Detector :=
  match Detector.AddWord simpleToLower none d w l with
  | some (d, none) => some d
  | _ => none

/-- Fresh default detector (`New()` with no options). -/
def freshDetector : Detector := Detector.New defaultOptions

/-- Detector with `AddWord("ad", High); AddWord("e", Low); Build()`. -/
def detAdE : Option Detector :=
  (addOk freshDetector wordAD 3).bind fun d =>
  (addOk d wordE 1).bind fun d => d.Build 50

/-- Detector with `AddWord("adz", High); AddWord("eq", High); Build()`. -/
def detAdzEq : Option Detector :=
  (addOk freshDetector wordADZ 3).bind fun d =>
  (addOk d wordEQ 3).bind fun d => d.Build 50

/-- Staging tree with `Insert("ad", 3); Insert("e", 1)`, then the
placement phase of `Build` only (before the failure-link BFS). -/
def treeAdEPlaced : Option trie.Tree :=
  ((trie.Tree.New.Insert wordAD 3).bind fun t => t.Insert wordE 1).bind
    fun t => t.buildPlace 50

/-- Detector with `AddWord("bad", High); Build()` (a healthy build: no
slot collision with the root children). -/
def detBad : Option Detector :=
  (addOk freshDetector wordBAD 3).bind fun d => d.Build 50

/-- Detector with `AddWord("a", High); Build()`. -/
def detA : Option Detector :=
  (addOk freshDetector [97] 3).bind fun d => d.Build 50

/-- Chained variant table `{a → b, b → c}`, as `LoadVariantMap` would
produce from the two well-formed lines `a<TAB>b` and `b<TAB>c`. -/
def chainTbl : VariantTbl := some [(97, 98), (98, 99)]

/-- Normalizer profile `New(variant := true, caseSensitive := true)`:
variant folding on, lowering off. -/
def variantOnlyNorm : Normalizer := Normalizer.New true true

/-- Expected result of `Detect("xbad")` on the `bad` detector, used by
the C3 witness. -/
def resultBad : Result := ⟨true, [⟨wordBAD, 1, 4, 3⟩], [120, 42, 42, 42]⟩

/-- The `bad` detector itself (the build succeeds, so the default is
never taken). -/
def detBadD : Detector := detBad.getD freshDetector

/-! ## Claim theorems -/

/-- C1.  The coverage claim fails on the code: after
`AddWord("ad", High); AddWord("e", Low); Build()`, the normalized text
`"ad"` contains the normalized pattern `"ad"` as a contiguous slice, yet
`Detect("ad")` reports no match at all.  The root-child loop of
`Tree.Build` places `'e'` (101) directly at slot 101 without checking
`used`, usurping the state of the `'d'` child of `'a'` that the earlier
recursion had packed there, so the transition for `"ad"` is destroyed. -/
theorem c1_coverage_failing_input_eval :
    (∃ pre suf : List Nat,
        Normalizer.ToRunes simpleToLower freshDetector.norm none wordAD =
          pre ++ Normalizer.Normalize simpleToLower freshDetector.norm none wordAD ++ suf) ∧
    (detAdE.bind fun d => Detector.Detect simpleToLower none 50 d wordAD) =
      some ⟨false, [], wordAD⟩ :=
  ⟨⟨[], [], by decide⟩, by decide⟩

/-- C2.  The offsets claim fails on the code: after
`AddWord("adz", High); AddWord("eq", High); Build()`, searching the text
`"ez"` reports the single match `(word "adz", Start = -1, End = 2)` —
a negative start, and a word that does not occur in the text — because
the usurped slot 101 keeps its old output record for `"adz"` while
becoming reachable along `"e"`.  `Detect` then panics (slice index `-1`)
while building the mask, modelled as `none`. -/
theorem c2_offsets_failing_input_eval :
    (detAdzEq.bind fun d =>
        d.tree.SearchDAT (Normalizer.ToRunes simpleToLower freshDetector.norm none textEZ) 50) =
      some [⟨wordADZ, -1, 2, 3⟩] ∧
    (-1 : Int) < 0 ∧
    (detAdzEq.bind fun d => Detector.Detect simpleToLower none 50 d textEZ) = none :=
  ⟨by decide, by decide, by decide⟩

/-- C4.  The add-after-build claim fails on the code: after
`AddWord("a", High); Build()` the detector is built, but the next
`AddWord("b", High)` — a non-empty word with a valid level — panics with
a nil-pointer dereference (modelled `none`), because `Build` released the
staging root (`t.root = nil`) and `Insert` walks it unguarded. -/
theorem c4_add_after_build_failing_input_eval :
    ([98] : List Nat) ≠ [] ∧
    levelIsValid 3 = true ∧
    (detA.map fun d => d.built) = some true ∧
    (detA.bind fun d => Detector.AddWord simpleToLower none d [98] 3).isNone = true :=
  ⟨by decide, by decide, by decide, by decide⟩

/-- C5.  The slot-uniqueness claim fails on the code: in the placement
phase for the pattern set `{"ad", "e"}`, the packer's own `children` log
shows that state 97 (`'a'`) was assigned a child with label 100 (`'d'`)
at slot `base[97] + 100 = 1 + 100 = 101`, and that the root was then
assigned a child with label 101 (`'e'`) at slot `base[0] + 101 = 101`:
two distinct parent/label pairs received the same slot, and the final
`check[101] = 0` shows the first assignment was overwritten. -/
theorem c5_slot_uniqueness_failing_input_eval :
    (treeAdEPlaced.map fun t =>
        (t.children 0, t.children 97, t.base 0, t.base 97, t.check 101, t.used 101)) =
      some ([97, 101], [100], 0, 1, 0, true) ∧
    1 + 100 = 101 ∧ 0 + 101 = 101 ∧ ((97, 100) : Nat × Nat) ≠ (0, 101) :=
  ⟨by decide, by decide, by decide, by decide⟩

/-- C9 counterexample.  Idempotence fails for a loaded variant table with
a chain: with variant folding enabled, case folding off, and the table
`{a → b, b → c}` (two well-formed `LoadVariantMap` lines), one
normalization of `"a"` yields `"b"` but a second yields `"c"`. -/
theorem c9_idempotence_counterexample :
    Normalizer.Normalize simpleToLower variantOnlyNorm chainTbl
        (Normalizer.Normalize simpleToLower variantOnlyNorm chainTbl [97]) ≠
      Normalizer.Normalize simpleToLower variantOnlyNorm chainTbl [97] := by
  decide

/-- C7.  `Detect` on the empty string returns `{false, [], ""}` under
every configuration, and on an unbuilt detector returns
`{false, [], text}` with the input text unchanged, for every text. -/
theorem c7_empty_and_unbuilt (tl : Nat → Nat) (tbl : VariantTbl) (fuel : Nat)
    (d : Detector) (text : List Nat) :
    Detector.Detect tl tbl fuel d [] = some ⟨false, [], []⟩ ∧
    (d.built = false → Detector.Detect tl tbl fuel d text = some ⟨false, [], text⟩) := by
  constructor
  · simp [Detector.Detect]
  · intro h
    by_cases ht : text = []
    · subst ht; simp [Detector.Detect]
    · simp [Detector.Detect, ht, h]

/-- C7 witness at a concrete unbuilt detector and text. -/
theorem c7_empty_and_unbuilt_witness :
    freshDetector.built = false ∧
    Detector.Detect simpleToLower none 50 freshDetector wordAD = some ⟨false, [], wordAD⟩ :=
  ⟨by decide, (c7_empty_and_unbuilt simpleToLower none 50 freshDetector wordAD).2 (by decide)⟩

/-- C6.  `AddWord` returns an error exactly when the word is empty, the
level is invalid, or the word normalizes to empty; whenever it returns an
error the detector state (tree, count, flags) is unchanged; and the
level-validity test accepts exactly `{1, 2, 3}`. -/
theorem c6_addword_error_iff (tl : Nat → Nat) (tbl : VariantTbl) (d : Detector)
    (w : List Nat) (l : Int) :
    ((∃ d2 e, Detector.AddWord tl tbl d w l = some (d2, some e)) ↔
      (w = [] ∨ ¬ levelIsValid l = true ∨ Normalizer.Normalize tl d.norm tbl w = [])) ∧
    (∀ d2 e, Detector.AddWord tl tbl d w l = some (d2, some e) → d2 = d) ∧
    (levelIsValid l = true ↔ (l = 1 ∨ l = 2 ∨ l = 3)) := by
  refine ⟨?_, ?_, ?_⟩
  · by_cases hw : w = []
    · simp [Detector.AddWord, hw]
    · by_cases hl : levelIsValid l = true
      · by_cases hn : Normalizer.Normalize tl d.norm tbl w = []
        · simp [Detector.AddWord, hw, hl, hn]
        · simp only [Detector.AddWord, if_neg hw, hl, not_true_eq_false, if_false, if_neg hn]
          cases hroot : d.tree.root with
          | none => simp [trie.Tree.Insert, hroot, hw, hl, hn]
          | some root => simp [trie.Tree.Insert, hroot, hw, hl, hn]
      · simp [Detector.AddWord, hw, hl]
  · intro d2 e h
    by_cases hw : w = []
    · simp [Detector.AddWord, hw] at h; exact h.1.symm
    · by_cases hl : levelIsValid l = true
      · by_cases hn : Normalizer.Normalize tl d.norm tbl w = []
        · simp [Detector.AddWord, hw, hl, hn] at h; exact h.1.symm
        · simp only [Detector.AddWord, if_neg hw, hl, not_true_eq_false, if_false, if_neg hn] at h
          cases hroot : d.tree.root with
          | none => simp [trie.Tree.Insert, hroot] at h
          | some root => simp [trie.Tree.Insert, hroot] at h
      · simp [Detector.AddWord, hw, hl] at h; exact h.1.symm
  · simp only [levelIsValid, decide_eq_true_eq]
    omega

/-- C6 witness: an invalid level at a concrete detector yields an error. -/
theorem c6_addword_error_iff_witness :
    ∃ d2 e, Detector.AddWord simpleToLower none freshDetector wordAD 7 = some (d2, some e) :=
  (c6_addword_error_iff simpleToLower none freshDetector wordAD 7).1.mpr
    (Or.inr (Or.inl (by decide)))

/-- C10.  Normalization is one-for-one on code points: the output length
equals the input length for every configuration and table; consequently a
non-empty word never normalizes to empty, and the `normalized word is
empty` error branch of `AddWord` is unreachable for non-empty input. -/
theorem c10_normalize_length_preserving (tl : Nat → Nat) (tbl : VariantTbl) :
    (∀ (n : Normalizer) (s : List Nat),
        (Normalizer.Normalize tl n tbl s).length = s.length) ∧
    (∀ (d : Detector) (w : List Nat) (l : Int) (d2 : Detector), w ≠ [] →
        Detector.AddWord tl tbl d w l ≠ some (d2, some .normalizedEmpty)) := by
  have hlen : ∀ (n : Normalizer) (s : List Nat),
      (Normalizer.Normalize tl n tbl s).length = s.length := by
    intro n s; simp [Normalizer.Normalize]
  refine ⟨hlen, ?_⟩
  intro d w l d2 hw h
  by_cases hl : levelIsValid l = true
  · have hn : Normalizer.Normalize tl d.norm tbl w ≠ [] := by
      intro he
      have := hlen d.norm w
      rw [he] at this
      exact hw (List.eq_nil_of_length_eq_zero this.symm)
    simp only [Detector.AddWord, if_neg hw, hl, not_true_eq_false, if_false, if_neg hn] at h
    cases hroot : d.tree.root with
    | none => simp [trie.Tree.Insert, hroot] at h
    | some root => simp [trie.Tree.Insert, hroot] at h
  · simp [Detector.AddWord, hw, hl] at h

/-- C10 witness at a concrete non-empty word. -/
theorem c10_normalize_length_preserving_witness :
    (Normalizer.Normalize simpleToLower freshDetector.norm none wordAD).length = wordAD.length ∧
    Detector.AddWord simpleToLower none freshDetector wordAD 1 ≠
      some (freshDetector, some .normalizedEmpty) :=
  ⟨(c10_normalize_length_preserving simpleToLower none).1 freshDetector.norm wordAD,
   (c10_normalize_length_preserving simpleToLower none).2 freshDetector wordAD 1 freshDetector
     (by decide)⟩

/-- Pointwise agreement of the part_002 loop body with the spec-side
pipeline. -/
theorem normRune_eq_spec (tl : Nat → Nat) (n : Normalizer) (tbl : VariantTbl) (r : Nat) :
    normRune tl n tbl r = specNormalizeRune tl n tbl r := by
  cases hv : n.variant <;> cases tbl <;> cases hl : n.lower <;>
    simp [normRune, specNormalizeRune, specVariantFold, specWidthFold, hv, hl]

/-- Pointwise agreement of the internal/normalizer loop body with the
spec-side pipeline under the corresponding profile. -/
theorem internalNormRune_eq_spec (tl : Nat → Nat) (ev cs : Bool) (tbl : VariantTbl) (r : Nat) :
    internalNormRune tl ev cs tbl r = specNormalizeRune tl (Normalizer.New ev cs) tbl r := by
  cases hv : ev <;> cases hc : cs <;>
    (cases tbl with
     | none =>
         simp [internalNormRune, specNormalizeRune, specVariantFold, specWidthFold, Normalizer.New]
     | some m =>
         cases m with
         | nil =>
             simp [internalNormRune, specNormalizeRune, specVariantFold, specWidthFold,
               Normalizer.New, assocLookup]
         | cons p rest =>
             simp [internalNormRune, specNormalizeRune, specVariantFold, specWidthFold,
               Normalizer.New])

/-- C8.  Both implementations of `Normalize` (part_002 and
src/internal/normalizer/normalizer.go) map each code point independently
through exactly the pipeline the spec words describe: variant substitution
when enabled and a table is loaded (unmapped code points passing
through), then lowercasing when case folding is enabled, then the
unconditional width fold; untouched code points pass unchanged. -/
theorem c8_normalize_refines_spec (tl : Nat → Nat) (tbl : VariantTbl) :
    (∀ (n : Normalizer) (s : List Nat),
        Normalizer.Normalize tl n tbl s = specNormalize tl n tbl s) ∧
    (∀ (ev cs : Bool) (s : List Nat),
        internalNormalize tl ev cs tbl s = specNormalize tl (Normalizer.New ev cs) tbl s) := by
  constructor
  · intro n s
    simp only [Normalizer.Normalize, specNormalize]
    exact List.map_congr_left fun r _ => normRune_eq_spec tl n tbl r
  · intro ev cs s
    simp only [internalNormalize, specNormalize]
    exact List.map_congr_left fun r _ => internalNormRune_eq_spec tl ev cs tbl r

/-- The width fold is idempotent. -/
theorem specWidthFold_idem (r : Nat) : specWidthFold (specWidthFold r) = specWidthFold r := by
  simp only [specWidthFold]
  split_ifs <;> omega

/-- Idempotence of `specWidthFold ∘ tl` from the three `unicode.ToLower`
facts. -/
theorem specWidthFold_comp_idem (tl : Nat → Nat)
    (h1 : ∀ r, tl (tl r) = tl r)
    (h2 : ∀ r, 0x20 ≤ r → r ≤ 0x7E → ¬(0x41 ≤ r ∧ r ≤ 0x5A) → tl r = r)
    (h3 : ∀ r, ¬(0xFF21 ≤ tl r ∧ tl r ≤ 0xFF3A)) (x : Nat) :
    specWidthFold (tl (specWidthFold (tl x))) = specWidthFold (tl x) := by
  by_cases hblock : 0xFF01 ≤ tl x ∧ tl x ≤ 0xFF5E
  · have hz : specWidthFold (tl x) = tl x - 0xFEE0 := by
      simp [specWidthFold, hblock]
    have hnotup := h3 x
    have htz : tl (tl x - 0xFEE0) = tl x - 0xFEE0 := by
      apply h2 <;> omega
    rw [hz, htz]
    simp only [specWidthFold]
    split_ifs <;> omega
  · by_cases hsp : tl x = 0x3000
    · have hz : specWidthFold (tl x) = 0x20 := by
        rw [hsp]
        simp only [specWidthFold]
        split_ifs <;> omega
      have htz : tl 0x20 = 0x20 := by
        apply h2 <;> omega
      rw [hz, htz]
      simp only [specWidthFold]
      split_ifs <;> omega
    · have hz : specWidthFold (tl x) = tl x := by
        simp [specWidthFold, hblock, hsp]
      rw [hz, h1 x]
      exact hz

/-- Idempotence of the per-code-point map when variant folding is
inactive. -/
theorem specNormalizeRune_idem (tl : Nat → Nat) (n : Normalizer) (tbl : VariantTbl)
    (h1 : ∀ r, tl (tl r) = tl r)
    (h2 : ∀ r, 0x20 ≤ r → r ≤ 0x7E → ¬(0x41 ≤ r ∧ r ≤ 0x5A) → tl r = r)
    (h3 : ∀ r, ¬(0xFF21 ≤ tl r ∧ tl r ≤ 0xFF3A))
    (hv : n.variant = false ∨ tbl = none) (r : Nat) :
    specNormalizeRune tl n tbl (specNormalizeRune tl n tbl r) = specNormalizeRune tl n tbl r := by
  have hvf : ∀ x, specVariantFold n.variant tbl x = x := by
    intro x
    rcases hv with hv | hv <;> simp [specVariantFold, hv]
  cases hl : n.lower with
  | false =>
      have hrw : specNormalizeRune tl n tbl = specWidthFold := by
        funext x
        simp [specNormalizeRune, hl, hvf]
      simp only [hrw]
      exact specWidthFold_idem r
  | true =>
      have hrw : specNormalizeRune tl n tbl = fun x => specWidthFold (tl x) := by
        funext x
        simp [specNormalizeRune, hl, hvf]
      simp only [hrw]
      exact specWidthFold_comp_idem tl h1 h2 h3 r

/-- `simpleToLower` is idempotent. -/
theorem simpleToLower_idem (r : Nat) : simpleToLower (simpleToLower r) = simpleToLower r := by
  simp only [simpleToLower]
  split_ifs <;> omega

/-- `simpleToLower` fixes printable ASCII outside the capital letters. -/
theorem simpleToLower_fix_ascii (r : Nat) (ha : 0x20 ≤ r) (hb : r ≤ 0x7E)
    (hc : ¬(0x41 ≤ r ∧ r ≤ 0x5A)) : simpleToLower r = r := by
  simp only [simpleToLower]
  split_ifs <;> omega

/-- `simpleToLower` never produces a full-width capital letter. -/
theorem simpleToLower_no_fullwidth_upper (r : Nat) :
    ¬(0xFF21 ≤ simpleToLower r ∧ simpleToLower r ≤ 0xFF3A) := by
  simp only [simpleToLower]
  split_ifs <;> omega

/-- C9 amended.  Normalization is idempotent for every configuration in
which variant folding is disabled or no variant table is loaded, granted
three facts about `unicode.ToLower`: it is idempotent, it fixes printable
ASCII outside the capital letters, and it never produces a full-width
capital letter.  (The claim as stated, over arbitrary loaded tables, is
refuted by the chained-table counterexample above.) -/
theorem c9_idempotence_amended (tl : Nat → Nat) (n : Normalizer) (tbl : VariantTbl)
    (h1 : ∀ r, tl (tl r) = tl r)
    (h2 : ∀ r, 0x20 ≤ r → r ≤ 0x7E → ¬(0x41 ≤ r ∧ r ≤ 0x5A) → tl r = r)
    (h3 : ∀ r, ¬(0xFF21 ≤ tl r ∧ tl r ≤ 0xFF3A))
    (hv : n.variant = false ∨ tbl = none) (s : List Nat) :
    Normalizer.Normalize tl n tbl (Normalizer.Normalize tl n tbl s) =
      Normalizer.Normalize tl n tbl s := by
  have he : ∀ u, Normalizer.Normalize tl n tbl u = specNormalize tl n tbl u := by
    intro u
    simp only [Normalizer.Normalize, specNormalize]
    exact List.map_congr_left fun r _ => normRune_eq_spec tl n tbl r
  simp only [he]
  simp only [specNormalize, List.map_map]
  exact List.map_congr_left fun r _ =>
    specNormalizeRune_idem tl n tbl h1 h2 h3 hv r

/-- C9 amended witness: the default (case-insensitive, no table)
configuration at a concrete mixed-case string, instantiating the
`unicode.ToLower` facts with `simpleToLower`. -/
theorem c9_idempotence_amended_witness :
    Normalizer.Normalize simpleToLower freshDetector.norm none
        (Normalizer.Normalize simpleToLower freshDetector.norm none [65, 0xFF21, 0x3000]) =
      Normalizer.Normalize simpleToLower freshDetector.norm none [65, 0xFF21, 0x3000] :=
  c9_idempotence_amended simpleToLower freshDetector.norm none
    simpleToLower_idem simpleToLower_fix_ascii simpleToLower_no_fullwidth_upper
    (Or.inl (by decide)) [65, 0xFF21, 0x3000]

/-- Reading a bool slice slot after a `set` with `true`. -/
theorem getD_set_true (mask : List Bool) (k j : Nat) :
    ((mask.set k true).getD j false = true) ↔
      ((j = k ∧ k < mask.length) ∨ mask.getD j false = true) := by
  by_cases hjk : j = k
  · subst hjk
    by_cases hl : j < mask.length
    · simp [List.getD_eq_getElem?_getD, List.getElem?_set_self', List.getElem?_eq_getElem hl, hl]
    · rw [List.set_eq_of_length_le (by omega)]
      simp [hl]
  · simp [List.getD_eq_getElem?_getD, List.getElem?_set_ne (by omega : k ≠ j), hjk]

/-- The zeroed bitmap from `pool.GetBools` reads false everywhere. -/
theorem getD_replicate_false (n j : Nat) : (List.replicate n false).getD j false = false := by
  simp [List.getD_eq_getElem?_getD, List.getElem?_replicate]
  split <;> simp

/-- Characterisation of the per-match bit-setting loop: on success the
bitmap keeps its length and a position is set exactly when it was set
before or lies in `[i, e)`. -/
theorem setBits_spec : ∀ (fuel : Nat) (mask : List Bool) (i e : Int) (mask2 : List Bool),
    setBits fuel mask i e = some mask2 →
    mask2.length = mask.length ∧
    ∀ j : Nat, j < mask.length →
      ((mask2.getD j false = true) ↔
        (mask.getD j false = true ∨ (i ≤ (j : Int) ∧ (j : Int) < e))) := by
  intro fuel
  induction fuel with
  | zero => intro mask i e mask2 h; simp [setBits] at h
  | succ fuel ih =>
      intro mask i e mask2 h
      simp only [setBits] at h
      by_cases hc : i < e ∧ i < (mask.length : Int)
      · rw [if_pos hc] at h
        by_cases hi : 0 ≤ i
        · rw [if_pos hi] at h
          obtain ⟨hlen, hspec⟩ := ih _ _ _ _ h
          rw [List.length_set] at hlen
          refine ⟨hlen, ?_⟩
          intro j hj
          have hj2 : j < (mask.set i.toNat true).length := by
            rw [List.length_set]; exact hj
          rw [hspec j hj2, getD_set_true]
          simp only [List.length_set] at hj2
          constructor
          · rintro ((⟨hji, hki⟩ | hm) | ⟨hle, hlt⟩)
            · exact Or.inr ⟨by omega, by omega⟩
            · exact Or.inl hm
            · exact Or.inr ⟨by omega, by omega⟩
          · rintro (hm | ⟨hle, hlt⟩)
            · exact Or.inl (Or.inr hm)
            · by_cases hji : (j : Int) = i
              · exact Or.inl (Or.inl ⟨by omega, by omega⟩)
              · exact Or.inr ⟨by omega, by omega⟩
        · rw [if_neg hi] at h; cases h
      · rw [if_neg hc] at h
        obtain rfl : mask = mask2 := Option.some.inj h
        refine ⟨rfl, ?_⟩
        intro j hj
        by_cases hm : mask.getD j false = true <;> simp [hm] <;> omega

/-- Characterisation of the whole mask-building loop: a position ends up
set exactly when it was set before or lies inside some reported match. -/
theorem buildMask_spec : ∀ (ms : List trie.Match) (fuel : Nat) (mask : List Bool) (mask2 : List Bool),
    buildMask fuel ms mask = some mask2 →
    mask2.length = mask.length ∧
    ∀ j : Nat, j < mask.length →
      ((mask2.getD j false = true) ↔
        (mask.getD j false = true ∨ maskedAt ms j = true)) := by
  intro ms
  induction ms with
  | nil =>
      intro fuel mask mask2 h
      obtain rfl : mask = mask2 := Option.some.inj h
      exact ⟨rfl, fun j hj => by simp [maskedAt]⟩
  | cons m rest ih =>
      intro fuel mask mask2 h
      simp only [buildMask] at h
      cases hs : setBits fuel mask m.Start m.EndPos with
      | none => rw [hs] at h; cases h
      | some mask1 =>
          rw [hs] at h
          obtain ⟨hlen1, hspec1⟩ := setBits_spec fuel mask m.Start m.EndPos mask1 hs
          obtain ⟨hlen2, hspec2⟩ := ih fuel mask1 mask2 h
          refine ⟨by omega, ?_⟩
          intro j hj
          rw [hspec2 j (by omega), hspec1 j hj]
          simp only [maskedAt, List.any_cons, Bool.or_eq_true, decide_eq_true_eq]
          tauto

/-- The rewrite loop agrees with the spec-side position-by-position
rewrite whenever the bitmap has the right length and encodes exactly the
masked positions. -/
theorem applyFilter_eq_spec (o : Options) (ms : List trie.Match) :
    ∀ (runes : List Nat) (mask : List Bool) (i : Nat),
      mask.length = runes.length →
      (∀ j, j < runes.length → ((mask.getD j false = true) ↔ maskedAt ms (i + j) = true)) →
      applyFilter o runes mask = specRewriteFrom o ms runes i := by
  intro runes
  induction runes with
  | nil =>
      intro mask i hlen _
      have : mask = [] := List.eq_nil_of_length_eq_zero (by simpa using hlen)
      subst this
      simp [applyFilter, specRewriteFrom]
  | cons r rs ih =>
      intro mask i hlen hmask
      cases mask with
      | nil => simp at hlen
      | cons b bs =>
          simp only [List.length_cons, Nat.succ.injEq] at hlen
          have hb : b = maskedAt ms i := by
            rw [Bool.eq_iff_iff]
            have := hmask 0 (by simp)
            simpa using this
          have hrec : applyFilter o rs bs = specRewriteFrom o ms rs (i + 1) := by
            apply ih bs (i + 1) hlen
            intro j hj
            have := hmask (j + 1) (by simpa using Nat.succ_lt_succ hj)
            have harith : i + (j + 1) = i + 1 + j := by omega
            rw [harith] at this
            simpa using this
          subst hb
          cases hmb : maskedAt ms i with
          | false =>
              simp only [applyFilter, specRewriteFrom, hmb, if_neg]
              simp [hrec]
          | true =>
              cases hst : o.filterStrategy with
              | mask => simp [applyFilter, specRewriteFrom, hmb, hst, hrec]
              | replace => simp [applyFilter, specRewriteFrom, hmb, hst, hrec]
              | remove => simp [applyFilter, specRewriteFrom, hmb, hst, hrec]

/-- C3.  Whenever `Detect` returns a result with at least one match, the
returned `FilteredText` is exactly the normalized input rewritten
position by position: positions inside some reported match's
`[Start, End)` emit `'*'` under mask (whatever the configured
replacement), the configured replacement under replace, nothing under
remove; all other positions emit the normalized code point unchanged. -/
theorem c3_rewrite_matches_spec (tl : Nat → Nat) (tbl : VariantTbl) (fuel : Nat)
    (d : Detector) (text : List Nat) (r : Result)
    (h : Detector.Detect tl tbl fuel d text = some r)
    (hs : r.HasSensitive = true) :
    r.FilteredText = specRewrite d.opts r.Matches (Normalizer.ToRunes tl d.norm tbl text) := by
  by_cases ht : text = []
  · subst ht
    simp only [Detector.Detect, if_pos rfl] at h
    obtain rfl := Option.some.inj h
    simp at hs
  · simp only [Detector.Detect, if_neg ht] at h
    by_cases hb : d.built = false
    · rw [if_pos hb] at h
      obtain rfl := Option.some.inj h
      simp at hs
    · rw [if_neg hb] at h
      split at h
      · exact absurd h (by simp)
      · rename_i ms hsd
        split at h
        · split at h
          · exact absurd h (by simp)
          · rename_i hm mask hbm
            obtain rfl := Option.some.inj h
            obtain ⟨hlen, hspec⟩ := buildMask_spec ms fuel _ mask hbm
            rw [List.length_replicate] at hlen
            simp only [specRewrite]
            apply applyFilter_eq_spec
            · exact hlen
            · intro j hj
              have := hspec j (by rw [List.length_replicate]; exact hj)
              rw [getD_replicate_false] at this
              simpa using this
        · obtain rfl := Option.some.inj h
          simp at hs

/-- C3 witness: the detector `{"bad" → High}` on `"xbad"` (mask
strategy) rewrites to `"x***"`, matching the spec-side rewrite. -/
theorem c3_rewrite_matches_spec_witness :
    resultBad.FilteredText = specRewrite detBadD.opts resultBad.Matches
      (Normalizer.ToRunes simpleToLower detBadD.norm none textXBAD) :=
  c3_rewrite_matches_spec simpleToLower none 50 detBadD textXBAD resultBad (by decide) (by decide)
